import Mathlib

/-!
Verification of the resource-resolution and document-traversal engine of the
standard-http-mongodb-storage repository, as a shallow embedding in Lean 4.

The embedding follows the Python source:
  * `Doc`, `getSub`, `walkVal`, `documentTraverse`, `invokeSetter` embed
    `engine/methods.py` (`_document_traverse`, `_make_setter`);
  * `cursorSkipLimit`, `list_get` embed `engine/methods.py` (`list_get`);
  * `runPath`, `parse_path` embed `engine/misc.py` (`parse_path`);
  * `runRoute` and its pieces embed the decorator pipeline of `flask_app.py`
    (`_capture_unexpected_errors`, `_using_resource`, `_bearer_required`);
  * `resourceFields`, `normalizeResource` transcribe the RESOURCE schema of
    `engine/schemas.py`; the normalization algorithm itself (the cerberus
    validator subclass) is modelled from the spec.
-/

namespace HttpStorage

/-- A BSON/JSON-like document value: Python `None`, `bool`, `int`, `str`,
`list`, and `dict` with string keys (BSON documents only have string keys).
Dicts are association lists; real documents have no duplicate keys, so
theorems that need uniqueness take an explicit `Nodup` hypothesis. -/
inductive Doc where
  | null
  | bool (b : Bool)
  | int (n : Int)
  | str (s : String)
  | arr (items : List Doc)
  | obj (fields : List (String × Doc))

mutual

/-- Boolean equality on document values (Python `==` for this fragment). -/
def Doc.beq : Doc → Doc → Bool
  | .null, .null => true
  | .bool a, .bool b => a == b
  | .int a, .int b => a == b
  | .str a, .str b => a == b
  | .arr xs, .arr ys => Doc.beqItems xs ys
  | .obj xs, .obj ys => Doc.beqFields xs ys
  | _, _ => false

/-- Boolean equality on document lists. -/
def Doc.beqItems : List Doc → List Doc → Bool
  | [], [] => true
  | x :: xs, y :: ys => Doc.beq x y && Doc.beqItems xs ys
  | _, _ => false

/-- Boolean equality on document field lists. -/
def Doc.beqFields : List (String × Doc) → List (String × Doc) → Bool
  | [], [] => true
  | (k, v) :: xs, (k', v') :: ys => k == k' && Doc.beq v v' && Doc.beqFields xs ys
  | _, _ => false

end

/-- One traversal subscript, as produced by `parse_path`: a string
(dict field or dict key) or an integer (list index). -/
inductive Sub where
  | fld (s : String)
  | idx (n : Int)
deriving DecidableEq

/-- First-match association-list lookup: Python `dict[key]` / `dict.get`. -/
def lookupD : List (String × Doc) → String → Option Doc
  | [], _ => none
  | (k, v) :: rest, key => if k = key then some v else lookupD rest key

/-- Python sequence indexing: `0 ≤ i < len` uses `i`; `-len ≤ i < 0` uses
`len + i`; anything else raises IndexError (here: `none`). -/
def pyIndex (len : Nat) (i : Int) : Option Nat :=
  if 0 ≤ i then (if i < (len : Int) then some i.toNat else none)
  else (if -(len : Int) ≤ i then some (i + len).toNat else none)

/-- One subscript dereference, `part[subscript]`, returning `none` exactly
when Python raises (KeyError, IndexError, TypeError): string subscripts only
work on dicts, integer subscripts on lists and strings (Python string
indexing yields a one-character string); everything else is unsubscriptable. -/
def getSub : Doc → Sub → Option Doc
  | .obj fs, .fld k => lookupD fs k
  | .arr l, .idx i => (pyIndex l.length i).bind (fun n => l.get? n)
  | .str st, .idx i =>
      (pyIndex st.length i).bind (fun n => (st.toList.get? n).map (fun c => .str (String.mk [c])))
  | _, _ => none

/-- Python dict assignment `d[k] = v`: replace the existing entry, else append. -/
def setKey : List (String × Doc) → String → Doc → List (String × Doc)
  | [], k, v => [(k, v)]
  | (k', v') :: rest, k, v =>
      if k' = k then (k, v) :: rest else (k', v') :: setKey rest k v

/-- One-step in-place update `parent[subscript] = v` (value-semantics form).
Where the corresponding `getSub` succeeds, this updates the same slot. -/
def setSub : Doc → Sub → Doc → Doc
  | .obj fs, .fld k, v => .obj (setKey fs k v)
  | .arr l, .idx i, v =>
      match pyIndex l.length i with
      | some n => .arr (l.set n v)
      | none => .arr l
  | d, _, _ => d

/-- Replace the value at a whole access path inside a document: the
value-semantics rendering of mutating, through Python aliasing, the parent
container at the last step of the path (spec 9, closure-based write-back). -/
def setAt : Doc → List Sub → Doc → Doc
  | _, [], v => v
  | d, s :: rest, v =>
      match getSub d s with
      | some child => setSub d s (setAt child rest v)
      | none => d

/-- The traversal loop of `_document_traverse` (methods.py lines 129-143)
without the setter bookkeeping: at each step a `None` part aborts, then the
subscript is applied, any failure aborting; `some` is the final part
(possibly `null`, which the loop head would reject but the loop end accepts). -/
def walkVal : Doc → List Sub → Option Doc
  | d, [] => some d
  | .null, _ :: _ => none
  | d, s :: rest =>
      match getSub d s with
      | none => none
      | some d' => walkVal d' rest

/-- A projection as accepted by `_document_traverse`: either a list of field
names (always inclusion) or a mapping field-to-flag.  Flag values are
booleans (the Python code coerces them with `bool`). -/
inductive Projection where
  | list (fields : List String)
  | dict (entries : List (String × Bool))
deriving DecidableEq

/-- Python truthiness of the projection argument: an empty list or an empty
dict is falsy, so no projection is applied (methods.py line 148). -/
def Projection.isTruthy : Projection → Bool
  | .list fs => !fs.isEmpty
  | .dict es => !es.isEmpty

/-- Key dedup of a Python dict comprehension over a list: the first
occurrence of each name keeps its position, later duplicates are dropped. -/
def dedupFirst : List String → List String
  | [] => []
  | k :: rest => k :: (dedupFirst rest).filter (fun k' => k' ≠ k)

/-- The entries of a projection once the list form is converted to the dict
form (methods.py lines 157-158): the dict comprehension keeps the first
occurrence of each name and flags every one as an inclusion. -/
def projEntries : Projection → List (String × Bool)
  | .list fs => (dedupFirst fs).map (fun k => (k, true))
  | .dict es => es

/-- Python `part.pop(k, None)` on an association list: the removed value (or
`none`) together with the list without the first `k` entry. -/
def popKey : List (String × Doc) → String → Option Doc × List (String × Doc)
  | [], _ => (none, [])
  | (k', v) :: rest, k =>
      if k' = k then (some v, rest)
      else
        let r := popKey rest k
        (r.1, (k', v) :: r.2)

/-- The pop loop at methods.py lines 167-169: builds the `included` mapping
while removing every listed key from the live part, returning both. -/
def projPops : List String → List (String × Doc) → List (String × Doc) →
    List (String × Doc) × List (String × Doc)
  | [], inc, part => (inc, part)
  | k :: rest, inc, part =>
      let r := popKey part k
      projPops rest (inc ++ [(k, r.1.getD .null)]) r.2

/-- Projection application from methods.py lines 157-175: list form becomes
an all-inclusion dict; mixed flags raise ValueError; the key loop pops every
listed key from the part; the inclusion flag picks the `included` mapping,
the exclusion flag the remaining part.  The result is the pair of the value
to return and the (mutated) live part. -/
def applyProjection (p : Projection) (fs : List (String × Doc)) :
    Except String (List (String × Doc) × List (String × Doc)) :=
  let es := projEntries p
  if es.any (fun e => e.2) && es.any (fun e => !e.2) then
    .error "The dict-format projection must not have both exclusions and inclusions"
  else
    match es with
    | [] => .error "pop from an empty set"
    | e0 :: _ =>
      let flag := e0.2
      let r := projPops (es.map (fun e => e.1)) [] fs
      .ok (if flag then r.1 else r.2, r.2)

/-- Outcome of `_document_traverse`: Python returns `(None, False)` for a
failed walk, `((part, setter), True)` for a successful one, or lets a
projection exception propagate.  The setter closure is rendered as the access
path it writes to (spec 9 sanctions this explicit form); `newRoot` is the
in-memory root document after the call (the projection pops mutate it). -/
inductive TravOutcome where
  | notFound
  | found (part : Doc) (setterPath : Option (List Sub)) (newRoot : Doc)
  | error (msg : String)

/-- The embedding of `_document_traverse` (methods.py lines 104-175).  The
walk is `walkVal`; the final setter targets the whole path (it was rebuilt at
every successful step); a `null` final part skips the projection; a dict
final part with a truthy projection is projected, the pops reflected back
into the root at the traversed location. -/
def documentTraverse (root : Doc) (path : List Sub) (proj : Option Projection) :
    TravOutcome :=
  match walkVal root path with
  | none => .notFound
  | some part =>
    let sp : Option (List Sub) := if path.isEmpty then none else some path
    match part, proj with
    | .null, _ => .found .null sp root
    | .obj fs, some p =>
        if p.isTruthy then
          match applyProjection p fs with
          | .error e => .error e
          | .ok r => .found (.obj r.1) sp (setAt root path (.obj r.2))
        else .found (.obj fs) sp root
    | d, _ => .found d sp root

/-- A database write emitted through the collaborator interface (spec 6). -/
inductive DbOp where
  | replaceOne (idFilter : Doc) (newDoc : Doc)
  | updateOne (filter : Doc) (patch : Doc)

/-- Invoking the setter produced by `_make_setter` (methods.py lines 86-101):
`parent[subscript] = replacement` mutates the root document at the traversed
path, then `collection.replace_one` persists the whole root keyed by its
`_id`.  Returns the new in-memory root and the emitted operation (`none`
models the KeyError raised when the root has no `_id`). -/
def invokeSetter (root : Doc) (p : List Sub) (v : Doc) : Doc × Option DbOp :=
  let root' := setAt root p v
  match root' with
  | .obj fs =>
    match lookupD fs "_id" with
    | some idv => (root', some (.replaceOne idv root'))
    | none => (root', none)
  | _ => (root', none)

/-- MongoDB `replace_one({"_id": idv}, newDoc)` on a collection rendered as a
list of documents: the first document whose `_id` equals the filter value is
replaced whole. -/
def applyReplaceOne : List Doc → Doc → Doc → List Doc
  | [], _, _ => []
  | d :: rest, idv, newDoc =>
      match d with
      | .obj fs =>
        match lookupD fs "_id" with
        | some i => if Doc.beq i idv then newDoc :: rest else d :: applyReplaceOne rest idv newDoc
        | none => d :: applyReplaceOne rest idv newDoc
      | _ => d :: applyReplaceOne rest idv newDoc

/-- MAX_RESULTS from methods.py line 8 with the default environment:
`max(1, int(os.getenv('MAX_RESULTS', '20')))`. -/
def MAX_RESULTS : Nat := 20

/-- The Cursor named tuple of methods.py lines 12-22. -/
structure Cursor where
  order_by : Option (List String)
  offset : Option Int
  limit : Option Int

/-- The skip/limit computation of `list_get` (methods.py lines 60-68),
transcribed exactly: the `cursor.limit` branch assigns `max(1, cursor.limit)`
to `skip`, and `limit` keeps its initial `MAX_RESULTS` value. -/
def cursorSkipLimit (cursor : Option Cursor) : Nat × Nat :=
  match cursor with
  | none => (0, MAX_RESULTS)
  | some c =>
    let skip : Int := 0
    let skip := match c.offset with | some o => max 0 o | none => skip
    let skip := match c.limit with | some l => max 1 l | none => skip
    (skip.toNat, MAX_RESULTS)

/-- The embedding of `list_get` (methods.py lines 47-71) for an empty static
filter, no projection and no sort (`cursor.order_by = None`): the collection
find returns the stored documents in order with `skip` dropped from the
front and at most `limit` kept. -/
def list_get (docs : List Doc) (cursor : Option Cursor) : List Doc :=
  let r := cursorSkipLimit cursor
  (docs.drop r.1).take r.2

/-- Field type of one path declaration node (schemas.py PARTIAL
`field_type`, allowed values scalar, list, dict). -/
inductive FType where
  | scalar
  | list
  | dict
deriving DecidableEq

/-- One node of the weak-resource path declaration tree, with the keys
`parse_path` reads (`field`, `type`) and the recursive `children` mapping
declared by the schema grammar. -/
inductive DsnNode where
  | mk (field : String) (ftype : FType) (children : List (String × DsnNode))

/-- The document field this node de-references. -/
def DsnNode.field : DsnNode → String
  | .mk f _ _ => f

/-- The declared type of this node. -/
def DsnNode.ftype : DsnNode → FType
  | .mk _ t _ => t

/-- The nested declarations of this node. -/
def DsnNode.children : DsnNode → List (String × DsnNode)
  | .mk _ _ cs => cs

/-- First-match lookup of a segment name in a declaration mapping. -/
def lookupNode : List (String × DsnNode) → String → Option DsnNode
  | [], _ => none
  | (k, v) :: rest, key => if k = key then some v else lookupNode rest key

/-- Python `int(s)` on a decimal literal: surrounding whitespace stripped, an
optional sign, then a non-empty run of digits; anything else raises
ValueError (here: `none`). -/
def pyInt (s : String) : Option Int :=
  let cs := ((s.toList.dropWhile Char.isWhitespace).reverse.dropWhile Char.isWhitespace).reverse
  let core : List Char → Option Nat := fun ds =>
    if ds.isEmpty || !ds.all Char.isDigit then none
    else some (ds.foldl (fun n c => n * 10 + (c.toNat - 48)) 0)
  match cs with
  | '-' :: rest => (core rest).map (fun n => -(n : Int))
  | '+' :: rest => (core rest).map (fun n => (n : Int))
  | _ => (core cs).map (fun n => (n : Int))

/-- The iteration loop of `parse_path` (misc.py lines 24-80), entered in the
`ExpectSegment` state.  Every chunk is looked up in `dsn`, the mapping the
loop started with (the loop never rebinds `paths_dsn`).  A scalar match just
appends the field.  A dict match appends the field, then consumes the next
raw segment as the key, failing if the segments are exhausted (the
`expecting_dict_key` flag is set across that `next` call).  A list match
appends the field and sets `expecting_optional_list_index`, whose handling
at the next loop head is inlined here: exhaustion succeeds (the index is
optional at the end), otherwise the next segment must parse as an integer
index and the loop resumes at chunk processing. -/
def runPath (dsn : List (String × DsnNode)) :
    List String → List Sub → Option (List Sub)
  | [], acc => some acc
  | c :: rest, acc =>
      match lookupNode dsn c with
      | none => none
      | some node =>
        match node.ftype with
        | .scalar => runPath dsn rest (acc ++ [Sub.fld node.field])
        | .dict =>
          match rest with
          | [] => none
          | k :: rest' => runPath dsn rest' (acc ++ [Sub.fld node.field, Sub.fld k])
        | .list =>
          match rest with
          | [] => some (acc ++ [Sub.fld node.field])
          | s :: rest' =>
            match pyInt s with
            | none => none
            | some n => runPath dsn rest' (acc ++ [Sub.fld node.field, Sub.idx n])

/-- The embedding of `parse_path` (misc.py lines 4-86): with a non-empty
declaration mapping an empty segment list fails and otherwise the loop runs;
with an empty mapping a non-empty segment list fails and an empty one
succeeds with no path. -/
def parse_path (dsn : List (String × DsnNode)) (extra : List String) :
    Option (List Sub) × Bool :=
  match dsn with
  | _ :: _ =>
    match extra with
    | [] => (none, false)
    | _ :: _ =>
      match runPath dsn extra [] with
      | some r => (some r, true)
      | none => (none, false)
  | [] =>
    match extra with
    | _ :: _ => (none, false)
    | [] => (none, true)

/-- A node with its children mapping emptied. -/
def eraseChildren : DsnNode → DsnNode
  | .mk f t _ => .mk f t []

/-- A declaration mapping with every children mapping emptied. -/
def eraseAllChildren (dsn : List (String × DsnNode)) : List (String × DsnNode) :=
  dsn.map (fun p => (p.1, eraseChildren p.2))

/-- A value stored under one key of a (raw or normalized) resource
definition document. -/
inductive Val where
  | str (s : String)
  | strList (ss : List String)
  | dict (entries : List (String × Val))

/-- First-match lookup in a resource definition document. -/
def lookupVal : List (String × Val) → String → Option Val
  | [], _ => none
  | (k, v) :: rest, key => if k = key then some v else lookupVal rest key

/-- First-match lookup of a resource name in the configured resources map. -/
def lookupRes : List (String × List (String × Val)) → String →
    Option (List (String × Val))
  | [], _ => none
  | (k, v) :: rest, key => if k = key then some v else lookupRes rest key

/-- An inbound HTTP request as the wrappers of flask_app.py see it: the
resource name from the URL, the HTTP method name, and the raw Authorization
header (absent, or its full string value). -/
structure Request where
  resource : String
  method : String
  authHeader : Option String

/-- The responses the wrappers of flask_app.py produce, by their `code`
payloads and status: `notFound` is the 404 not-found body, `internalError`
the 500 body of `_capture_unexpected_errors`, and the four auth responses
come from `_bearer_required`. -/
inductive Response where
  | ok
  | notFound
  | internalError
  | missingHeader
  | badScheme
  | syntaxError
  | authNotFound
deriving DecidableEq

/-- Observable phases of the request pipeline, recorded in order. -/
inductive Step where
  | resourceLookup
  | verbCheck
  | authCheck
  | innerHandler
deriving DecidableEq

/-- Python `resource_definition[key]`: `ok` the value, or a KeyError. -/
def getItem (d : List (String × Val)) (k : String) : Except String Val :=
  match lookupVal d k with
  | some v => .ok v
  | none => .error ("KeyError: " ++ k)

/-- The verb permission test of `_using_resource` (flask_app.py line 168):
the request passes when `verbs` is the wildcard string or when the HTTP
method name is a member of the verbs list.  (A normalized `verbs` is always
the wildcard or a list of verb slugs.) -/
def verbsAllow (verbs : Val) (method : String) : Bool :=
  match verbs with
  | .str s => s = "*"
  | .strList vs => vs.contains method
  | .dict _ => false

/-- Python `str.split(" ")` on the character list: split at every single
space, keeping empty parts, so the result is always non-empty. -/
def splitChars : List Char → List (List Char)
  | [] => [[]]
  | c :: rest =>
    match splitChars rest with
    | [] => [[c]]
    | h :: t => if c = ' ' then [] :: h :: t else (c :: h) :: t

/-- Python `str.split(" ")`. -/
def pySplitSpace (s : String) : List String :=
  (splitChars s.toList).map (fun cs => String.mk cs)

/-- Python `str.lower()` for ASCII scheme names. -/
def pyLower (s : String) : String :=
  String.mk (s.toList.map (fun c => if 'A' ≤ c ∧ c ≤ 'Z' then Char.ofNat (c.toNat + 32) else c))

/-- The body of `_bearer_required` (flask_app.py lines 106-128): a missing
or empty header is `missingHeader`; a header that does not split on a single
space into exactly two parts is a `syntaxError` (the two-name tuple unpack
raises ValueError); a first part other than `bearer` (case-insensitively) is
`badScheme`; a token the auth collection does not hold valid is
`authNotFound`; otherwise the check passes (`none`).  The auth-collection
lookup is the external collaborator, abstracted as `tokenValid`. -/
def bearerCheck (auth : Option String) (tokenValid : Bool) : Option Response :=
  match auth with
  | none => some .missingHeader
  | some a =>
    if a = "" then some .missingHeader
    else
      match pySplitSpace a with
      | [scheme, _token] =>
          if pyLower scheme = "bearer" then
            if tokenValid then none else some .authNotFound
          else some .badScheme
      | _ => some .syntaxError

/-- The body of `_using_resource` after a resource definition was found
(flask_app.py lines 161-170), with the wrapped `_bearer_required` handler
inlined as the continuation: the definition's `verbs`, `db`, `collection`,
`filter` and `soft_delete` entries are read in that order (any missing key
raising KeyError, rendered as `error`), then the verb permission is checked,
and only then the bearer check and the route handler run. -/
def afterResource (rd : List (String × Val))
    (handler : List (String × Val) → Request → Response × List Step)
    (tokenValid : Bool) (req : Request) :
    Except String (Response × List Step) :=
  match getItem rd "verbs" with
  | .error e => .error e
  | .ok verbs =>
    match getItem rd "db" with
    | .error e => .error e
    | .ok _ =>
      match getItem rd "collection" with
      | .error e => .error e
      | .ok _ =>
        match getItem rd "filter" with
        | .error e => .error e
        | .ok _ =>
          match getItem rd "soft_delete" with
          | .error e => .error e
          | .ok _ =>
            if verbsAllow verbs req.method then
              match bearerCheck req.authHeader tokenValid with
              | some r => .ok (r, [.verbCheck, .authCheck])
              | none =>
                let h := handler rd req
                .ok (h.1, [.verbCheck, .authCheck, .innerHandler] ++ h.2)
            else .ok (.notFound, [.verbCheck])

/-- The full wrapper pipeline around every resource route of flask_app.py,
applied in decorator order `_capture_unexpected_errors` around
`_using_resource` around `_bearer_required` around the handler: the resource
is resolved first (unknown or empty definition is the 404), then
`afterResource` runs, any exception collapsing to the 500 internal error.
The returned trace lists the executed phases in order. -/
def runRoute (handler : List (String × Val) → Request → Response × List Step)
    (resources : List (String × List (String × Val)))
    (tokenValid : Bool) (req : Request) : Response × List Step :=
  match lookupRes resources req.resource with
  | none => (.notFound, [.resourceLookup])
  | some rd =>
    if rd.isEmpty then (.notFound, [.resourceLookup])
    else
      match afterResource rd handler tokenValid req with
      | .error _ => (.internalError, [.resourceLookup])
      | .ok r => (r.1, .resourceLookup :: r.2)

/-- One field declaration of the RESOURCE schema grammar: its key, whether
it is required, and its default value when a `default_setter` is declared. -/
structure FieldSpec where
  name : String
  required : Bool
  dfault : Option Val

/-- The RESOURCE schema of engine/schemas.py lines 60-166, transcribed field
by field: `type`, `db` and `collection` are required; `filter`, `methods`,
`verbs`, `partials` and `schema` carry defaults; the schema declares no
`soft_delete` field. -/
def resourceFields : List FieldSpec := [
  ⟨"type", true, none⟩,
  ⟨"db", true, none⟩,
  ⟨"collection", true, none⟩,
  ⟨"filter", false, some (.dict [])⟩,
  ⟨"projection", false, none⟩,
  ⟨"order_by", false, none⟩,
  ⟨"list_projection", false, none⟩,
  ⟨"methods", false, some (.dict [])⟩,
  ⟨"item_methods", false, none⟩,
  ⟨"verbs", false, some (.str "*")⟩,
  ⟨"partials", false, some (.dict [])⟩,
  ⟨"schema", false, some (.dict [])⟩]

/-- Modelled from the spec: the cerberus-based validator class that
flask_app.py applies to the settings document is not under src, so its
normalization is modelled from spec 4.1 — validation fails when an unknown
resource field is present under strict mode or a required field is missing,
and normalization fills each declared default for an absent field.  Value
checks (types, allowed enumerations, regexes, dependencies) only narrow the
accepted set further, so this model accepts a superset of the real one and
universally quantified consequences transfer. -/
def normField (raw : List (String × Val)) (f : FieldSpec) : Option (String × Val) :=
  match lookupVal raw f.name with
  | some v => some (f.name, v)
  | none => f.dfault.map (fun d => (f.name, d))

/-- Modelled from the spec: normalization of one resource definition — every
present key must be declared, every required key must be present, and each
declared field keeps its given value or receives its default. -/
def normalizeResource (raw : List (String × Val)) : Option (List (String × Val)) :=
  if raw.all (fun kv => resourceFields.any (fun f => f.name = kv.1)) then
    if resourceFields.all (fun f => !f.required || (lookupVal raw f.name).isSome) then
      some (resourceFields.filterMap (normField raw))
    else none
  else none

/-- Modelled from the spec: the resources section of the settings schema
(engine/schemas.py lines 212-223) validates and normalizes every value with
the RESOURCE schema; one failing resource fails the whole document. -/
def normalizeResources (raws : List (String × List (String × Val))) :
    Option (List (String × List (String × Val))) :=
  match raws with
  | [] => some []
  | (name, raw) :: rest =>
    match normalizeResource raw with
    | none => none
    | some rd =>
      match normalizeResources rest with
      | none => none
      | some rest' => some ((name, rd) :: rest')

/-! Supporting lemmas about association lists and the projection loop. -/

theorem lookupD_eq_none_iff (fs : List (String × Doc)) (k : String) :
    lookupD fs k = none ↔ k ∉ fs.map Prod.fst := by
  induction fs with
  | nil => simp [lookupD]
  | cons p rest ih =>
    obtain ⟨k', v⟩ := p
    simp only [List.map_cons, List.mem_cons]
    by_cases h : k' = k
    · subst h
      simp [lookupD]
    · rw [lookupD, if_neg h, ih]
      constructor
      · intro hn hc
        rcases hc with hc | hc
        · exact h hc.symm
        · exact hn hc
      · intro hn hc
        exact hn (Or.inr hc)

theorem popKey_fst (fs : List (String × Doc)) (k : String) :
    (popKey fs k).1 = lookupD fs k := by
  induction fs with
  | nil => simp [popKey, lookupD]
  | cons p rest ih =>
    obtain ⟨k', v⟩ := p
    by_cases h : k' = k <;> simp [popKey, lookupD, h, ih]

theorem popKey_cons (k0 : String) (v : Doc) (rest : List (String × Doc)) (k : String) :
    popKey ((k0, v) :: rest) k =
      if k0 = k then (some v, rest)
      else ((popKey rest k).1, (k0, v) :: (popKey rest k).2) := rfl

theorem lookupD_cons (k0 : String) (v : Doc) (rest : List (String × Doc)) (k : String) :
    lookupD ((k0, v) :: rest) k = if k0 = k then some v else lookupD rest k := rfl

theorem popKey_lookup_ne (fs : List (String × Doc)) (k k' : String) (h : k' ≠ k) :
    lookupD (popKey fs k).2 k' = lookupD fs k' := by
  induction fs with
  | nil => rfl
  | cons p rest ih =>
    obtain ⟨k0, v⟩ := p
    by_cases h0 : k0 = k
    · rw [popKey_cons, if_pos h0]
      show lookupD rest k' = lookupD ((k0, v) :: rest) k'
      rw [lookupD_cons, if_neg (fun hh => h (hh.symm.trans h0))]
    · rw [popKey_cons, if_neg h0]
      show lookupD ((k0, v) :: (popKey rest k).2) k' = lookupD ((k0, v) :: rest) k'
      rw [lookupD_cons, lookupD_cons]
      by_cases h1 : k0 = k'
      · rw [if_pos h1, if_pos h1]
      · rw [if_neg h1, if_neg h1, ih]

theorem popKey_sublist (fs : List (String × Doc)) (k : String) :
    (popKey fs k).2.Sublist fs := by
  induction fs with
  | nil => simp [popKey]
  | cons p rest ih =>
    obtain ⟨k', v⟩ := p
    by_cases h : k' = k
    · simp only [popKey, if_pos h]
      exact List.sublist_cons_self _ _
    · simp only [popKey, if_neg h]
      exact ih.cons₂ _

theorem popKey_lookup_self (fs : List (String × Doc)) (k : String)
    (hnd : (fs.map Prod.fst).Nodup) : lookupD (popKey fs k).2 k = none := by
  induction fs with
  | nil => simp [popKey, lookupD]
  | cons p rest ih =>
    obtain ⟨k', v⟩ := p
    simp only [List.map_cons, List.nodup_cons] at hnd
    by_cases h : k' = k
    · subst h
      simp only [popKey, if_pos rfl]
      exact (lookupD_eq_none_iff rest k').mpr hnd.1
    · simp [popKey, lookupD, h, ih hnd.2]

theorem lookupD_none_of_sublist (fs fs' : List (String × Doc)) (k : String)
    (hsub : fs'.Sublist fs) (h : lookupD fs k = none) : lookupD fs' k = none := by
  rw [lookupD_eq_none_iff] at h ⊢
  exact fun hmem => h ((hsub.map Prod.fst).mem hmem)

theorem projPops_preserve_none (S : List String) (acc : List (String × Doc))
    (fs : List (String × Doc)) (k : String) (h : lookupD fs k = none) :
    lookupD (projPops S acc fs).2 k = none := by
  induction S generalizing acc fs with
  | nil => simpa [projPops] using h
  | cons k0 rest ih =>
    simp only [projPops]
    exact ih _ _ (lookupD_none_of_sublist _ _ _ (popKey_sublist fs k0) h)

theorem projPops_nodup (S : List String) (acc : List (String × Doc))
    (fs : List (String × Doc)) (hnd : (fs.map Prod.fst).Nodup) :
    ((projPops S acc fs).2.map Prod.fst).Nodup := by
  induction S generalizing acc fs with
  | nil => simpa [projPops] using hnd
  | cons k0 rest ih =>
    simp only [projPops]
    exact ih _ _ (hnd.sublist ((popKey_sublist fs k0).map Prod.fst))

theorem projPops_removed (S : List String) (acc : List (String × Doc))
    (fs : List (String × Doc)) (hnd : (fs.map Prod.fst).Nodup) :
    ∀ k ∈ S, lookupD (projPops S acc fs).2 k = none := by
  induction S generalizing acc fs with
  | nil => simp
  | cons k0 rest ih =>
    intro k hk
    simp only [projPops]
    rcases List.mem_cons.mp hk with h | h
    · subst h
      exact projPops_preserve_none _ _ _ _ (popKey_lookup_self fs k hnd)
    · exact ih _ _ (hnd.sublist ((popKey_sublist fs k0).map Prod.fst)) k h

theorem projPops_fst (S : List String) (fs : List (String × Doc))
    (hnd : S.Nodup) : ∀ acc,
    (projPops S acc fs).1 = acc ++ S.map (fun k => (k, (lookupD fs k).getD .null)) := by
  induction S generalizing fs with
  | nil => intro acc; simp [projPops]
  | cons k0 rest ih =>
    intro acc
    simp only [List.nodup_cons] at hnd
    have hmap : rest.map (fun k => (k, (lookupD (popKey fs k0).2 k).getD Doc.null))
        = rest.map (fun k => (k, (lookupD fs k).getD Doc.null)) := by
      refine List.map_congr_left (fun k hk => ?_)
      have hne : k ≠ k0 := fun h => hnd.1 (h ▸ hk)
      rw [popKey_lookup_ne _ _ _ hne]
    simp only [projPops, popKey_fst, ih _ hnd.2, hmap, List.map_cons]
    simp

theorem dedupFirst_of_nodup (S : List String) (hnd : S.Nodup) : dedupFirst S = S := by
  induction S with
  | nil => rfl
  | cons k rest ih =>
    simp only [List.nodup_cons] at hnd
    simp only [dedupFirst, ih hnd.2]
    have hf : ∀ a ∈ rest, (decide (a ≠ k)) = true := by
      intro a ha
      rw [decide_eq_true_eq]
      intro hak
      exact hnd.1 (hak ▸ ha)
    rw [List.filter_eq_self.mpr hf]

/-! Supporting lemmas about the traversal walk and the write-back path. -/

theorem walkVal_nil (d : Doc) : walkVal d [] = some d := by
  cases d <;> rfl

theorem walkVal_null_cons (s : Sub) (rest : List Sub) :
    walkVal Doc.null (s :: rest) = none := rfl

theorem walkVal_cons (d : Doc) (s : Sub) (rest : List Sub) (hd : d ≠ .null) :
    walkVal d (s :: rest) =
      match getSub d s with
      | none => none
      | some d' => walkVal d' rest := by
  cases d with
  | null => exact absurd rfl hd
  | bool b => rfl
  | int n => rfl
  | str st => rfl
  | arr l => rfl
  | obj fs => rfl

theorem walkVal_append (p q : List Sub) (d : Doc) :
    walkVal d (p ++ q) = (walkVal d p).bind (fun x => walkVal x q) := by
  induction p generalizing d with
  | nil => simp [walkVal_nil]
  | cons s rest ih =>
    by_cases hd : d = Doc.null
    · subst hd
      simp [walkVal_null_cons]
    · rw [List.cons_append, walkVal_cons _ _ _ hd, walkVal_cons _ _ _ hd]
      cases hg : getSub d s with
      | none => simp
      | some d' => simp [ih]

theorem getSub_str (st : String) (s : Sub) (d' : Doc) (h : getSub (.str st) s = some d') :
    ∃ st', d' = .str st' := by
  cases s with
  | fld k => simp [getSub] at h
  | idx i =>
    simp only [getSub] at h
    rcases Option.bind_eq_some.mp h with ⟨n, _, hmap⟩
    rcases Option.map_eq_some'.mp hmap with ⟨c, _, hc⟩
    exact ⟨String.mk [c], hc.symm⟩

theorem walkVal_str (q : List Sub) (st : String) (r : Doc)
    (h : walkVal (.str st) q = some r) : ∃ st', r = .str st' := by
  induction q generalizing st with
  | nil => exact ⟨st, by simpa [walkVal_nil] using h.symm⟩
  | cons s rest ih =>
    rw [walkVal_cons _ _ _ (by simp)] at h
    cases hg : getSub (.str st) s with
    | none => rw [hg] at h; simp at h
    | some d' =>
      rw [hg] at h
      obtain ⟨st', rfl⟩ := getSub_str st s d' hg
      exact ih st' h

theorem lookupD_setKey (fs : List (String × Doc)) (k : String) (v : Doc) :
    lookupD (setKey fs k v) k = some v := by
  induction fs with
  | nil => simp [setKey, lookupD]
  | cons p rest ih =>
    obtain ⟨k0, v0⟩ := p
    by_cases h : k0 = k
    · simp [setKey, h, lookupD]
    · simp [setKey, h, lookupD, ih]

theorem get?_set_self (l : List Doc) (n : Nat) (w c : Doc) (h : l.get? n = some c) :
    (l.set n w).get? n = some w := by
  induction l generalizing n with
  | nil => simp at h
  | cons x xs ih =>
    cases n with
    | zero => simp
    | succ m => simpa using ih m (by simpa using h)

theorem walkVal_setAt (path : List Sub) (root v : Doc) (fs : List (String × Doc))
    (h : walkVal root path = some (.obj fs)) :
    walkVal (setAt root path v) path = some v := by
  induction path generalizing root fs with
  | nil =>
    simp only [setAt]
    exact walkVal_nil v
  | cons s rest ih =>
    by_cases hroot : root = Doc.null
    · subst hroot
      rw [walkVal_null_cons] at h
      exact absurd h (by simp)
    · rw [walkVal_cons _ _ _ hroot] at h
      cases hg : getSub root s with
      | none => rw [hg] at h; simp at h
      | some c =>
        rw [hg] at h
        have h' : walkVal c rest = some (Doc.obj fs) := h
        simp only [setAt, hg]
        cases root with
        | null => exact absurd rfl hroot
        | bool b => simp [getSub] at hg
        | int n => simp [getSub] at hg
        | str st =>
          obtain ⟨st', rfl⟩ := getSub_str st s c hg
          obtain ⟨st2, hst2⟩ := walkVal_str rest st' _ h'
          exact absurd hst2 (by simp)
        | obj fs0 =>
          cases s with
          | idx i => simp [getSub] at hg
          | fld k =>
            rw [walkVal_cons _ _ _ (by simp [setSub])]
            have hgs : getSub (Doc.obj (setKey fs0 k (setAt c rest v))) (Sub.fld k)
                = some (setAt c rest v) := lookupD_setKey fs0 k _
            rw [show setSub (Doc.obj fs0) (Sub.fld k) (setAt c rest v)
                = Doc.obj (setKey fs0 k (setAt c rest v)) from rfl]
            rw [hgs]
            exact ih _ _ h'
        | arr l =>
          cases s with
          | fld k => simp [getSub] at hg
          | idx i =>
            simp only [getSub] at hg
            rcases Option.bind_eq_some.mp hg with ⟨n, hp, hgetn⟩
            simp only [setSub, hp]
            rw [walkVal_cons _ _ _ (by simp)]
            have hgs : getSub (Doc.arr (l.set n (setAt c rest v))) (Sub.idx i)
                = some (setAt c rest v) := by
              show (pyIndex (l.set n (setAt c rest v)).length i).bind
                  (fun m => (l.set n (setAt c rest v)).get? m) = some (setAt c rest v)
              rw [List.length_set, hp]
              show (l.set n (setAt c rest v)).get? n = some (setAt c rest v)
              exact get?_set_self l n _ c hgetn
            rw [hgs]
            exact ih _ _ h'

/-! Concrete fixtures used by the scenario claims. -/

/-- The scenario root document: nested shape a / b / list of two c-objects,
with an `_id` for persistence. -/
def root1 : Doc := .obj [("_id", .int 7),
  ("a", .obj [("b", .arr [.obj [("c", .int 1)], .obj [("c", .int 2)]])])]

/-- The resolved access path a, b, 1, c. -/
def p1 : List Sub := [.fld "a", .fld "b", .idx 1, .fld "c"]

/-- The scenario root document after writing 99 through the write-back. -/
def root1after : Doc := .obj [("_id", .int 7),
  ("a", .obj [("b", .arr [.obj [("c", .int 1)], .obj [("c", .int 99)]])])]

/-- A collection holding the 25 documents with `_id` 1..25 in ascending
order. -/
def docs25 : List Doc := (List.range 25).map (fun i => .obj [("_id", .int (i + 1))])

/-- C1: for the root document with nested shape a / b / two-element list / c
and resolved path a, b, 1, c, traversal returns the value 2, found, with a
write-back capability over that exact path; invoking the write-back with 99
mutates the in-memory root so that the addressed entry becomes 99 and
persists the entire root document back to the collection keyed by the
root's `_id` as a whole-document replace (the emitted operation is a
`replaceOne` carrying the full new root, not a partial-field update). -/
theorem c1_traversal_writeback_fidelity :
    documentTraverse root1 p1 none = .found (.int 2) (some p1) root1
    ∧ invokeSetter root1 p1 (.int 99) = (root1after, some (DbOp.replaceOne (.int 7) root1after))
    ∧ applyReplaceOne [root1] (.int 7) root1after = [root1after] :=
  ⟨rfl, rfl, rfl⟩

/-- C2: the claim fails on `list_get`.  For the cursor with offset 20 and
limit 10 over the 25 documents with ids 1..25, the code assigns
`max(1, cursor.limit)` to `skip` (methods.py line 68), so it computes skip
10 and limit MAX_RESULTS = 20 and returns the 15 documents with ids 11..25
instead of skipping 20 and returning at most 10: the result neither skips
`cursor.offset` documents nor is bounded by `cursor.limit`. -/
theorem c2_list_get_skip_limit_defect :
    cursorSkipLimit (some ⟨none, some 20, some 10⟩) = (10, 20)
    ∧ list_get docs25 (some ⟨none, some 20, some 10⟩)
        = (List.range 15).map (fun i => Doc.obj [("_id", Doc.int (i + 11))])
    ∧ (list_get docs25 (some ⟨none, some 20, some 10⟩)).length = 15
    ∧ ¬((list_get docs25 (some ⟨none, some 20, some 10⟩)).length ≤ 10) := by
  refine ⟨rfl, by rfl, rfl, by decide⟩

/-- C7: traversing any path that passes through a `null` intermediate value,
dereferences a non-existent field of a dict, or applies a non-integer
(string) subscript to a list returns the not-found outcome (no value, no
setter, found false) and raises nothing. -/
theorem c7_missing_path_not_found (root : Doc) (pre suf : List Sub) (s : Sub)
    (proj : Option Projection)
    (hcase : walkVal root pre = some Doc.null
      ∨ (∃ fs k, walkVal root pre = some (.obj fs) ∧ s = .fld k ∧ lookupD fs k = none)
      ∨ (∃ l st, walkVal root pre = some (.arr l) ∧ s = .fld st)) :
    documentTraverse root (pre ++ s :: suf) proj = .notFound := by
  have hnone : walkVal root (pre ++ s :: suf) = none := by
    rw [walkVal_append]
    rcases hcase with h | ⟨fs, k, h, rfl, hl⟩ | ⟨l, st, h, rfl⟩
    · rw [h]
      simp [Option.bind, walkVal_null_cons]
    · rw [h]
      simp only [Option.some_bind]
      rw [walkVal_cons _ _ _ (by simp)]
      simp [getSub, hl]
    · rw [h]
      simp only [Option.some_bind]
      rw [walkVal_cons _ _ _ (by simp)]
      simp [getSub]
  simp only [documentTraverse, hnone]

/-- Witness for C7 at a concrete input: the root has field a bound to null,
and the path a, b crosses that null intermediate. -/
theorem c7_missing_path_not_found_witness :
    documentTraverse (.obj [("a", .null)]) [Sub.fld "a", Sub.fld "b"] none
      = TravOutcome.notFound :=
  c7_missing_path_not_found (.obj [("a", .null)]) [Sub.fld "a"] [] (Sub.fld "b") none
    (Or.inl rfl)

/-- C8: for a dict-valued final value and an inclusion projection over a
list of field names S (no duplicates), the projected result has exactly the
keys of S in order, each mapped to the dict's value for that key when
present and to null when absent. -/
theorem c8_inclusion_projection_roundtrip (S : List String) (fs : List (String × Doc))
    (hne : S ≠ []) (hnd : S.Nodup) :
    ∃ m, applyProjection (.list S) fs
      = .ok (S.map (fun k => (k, (lookupD fs k).getD .null)), m) := by
  cases S with
  | nil => exact absurd rfl hne
  | cons k0 S' =>
    refine ⟨(projPops (k0 :: S') [] fs).2, ?_⟩
    have hdedup : dedupFirst (k0 :: S') = k0 :: S' := dedupFirst_of_nodup _ hnd
    have hes : projEntries (.list (k0 :: S')) = (k0 :: S').map (fun k => (k, true)) := by
      simp [projEntries, hdedup]
    simp only [applyProjection, hes]
    have hmix : (((k0 :: S').map (fun k => (k, true))).any (fun e => e.2)
        && ((k0 :: S').map (fun k => (k, true))).any (fun e => !e.2)) = false := by
      simp [List.any_map, Function.comp]
    simp only [hmix, Bool.false_eq_true, if_false, List.map_cons, List.map_map]
    have hcomp : ((fun (e : String × Bool) => e.1) ∘ fun (k : String) => (k, true))
        = fun k => k := rfl
    rw [hcomp]
    have hid : S'.map (fun k => k) = S' := by simp
    rw [hid, projPops_fst _ _ hnd]
    simp

/-- Witness for C8 at a concrete input: projecting the fields x, y out of a
dict holding only x yields x with its value and y as null. -/
theorem c8_inclusion_projection_roundtrip_witness :
    ∃ m, applyProjection (.list ["x", "y"]) [("x", Doc.int 1)]
      = .ok ([("x", Doc.int 1), ("y", Doc.null)], m) :=
  c8_inclusion_projection_roundtrip ["x", "y"] [("x", Doc.int 1)]
    (by decide) (by decide)

theorem projEntries_ne_nil (p : Projection) (h : p.isTruthy = true) :
    projEntries p ≠ [] := by
  cases p with
  | list fs1 =>
    cases fs1 with
    | nil => simp [Projection.isTruthy] at h
    | cons k rest => simp [projEntries, dedupFirst]
  | dict es1 =>
    cases es1 with
    | nil => simp [Projection.isTruthy] at h
    | cons e rest => simp [projEntries]

theorem applyProjection_ok (p : Projection) (fs : List (String × Doc))
    (e0 : String × Bool) (es' : List (String × Bool)) (hes : projEntries p = e0 :: es')
    (hunan : ((projEntries p).any (fun e => e.2)
        && (projEntries p).any (fun e => !e.2)) = false) :
    applyProjection p fs = .ok
      (if e0.2 then (projPops ((e0 :: es').map (fun e => e.1)) [] fs).1
        else (projPops ((e0 :: es').map (fun e => e.1)) [] fs).2,
        (projPops ((e0 :: es').map (fun e => e.1)) [] fs).2) := by
  rw [hes] at hunan
  simp only [applyProjection, hes, hunan, Bool.false_eq_true, if_false]

/-- C10: whenever the traversal's final value is a dict and a non-empty
projection with consistent flags is applied (either form), every projected
key is popped from the live dict: the outcome's root document is the old
root with the addressed location replaced by the popped dict, that popped
dict no longer holds any projected key, and re-walking the path in the new
root reaches exactly the popped dict — so after a read with an inclusion
projection the in-memory root no longer contains the projected keys at the
addressed location. -/
theorem c10_projection_mutates_root (root : Doc) (path : List Sub) (proj : Projection)
    (fs : List (String × Doc))
    (hwalk : walkVal root path = some (.obj fs))
    (hnd : (fs.map Prod.fst).Nodup)
    (htruthy : proj.isTruthy = true)
    (hunan : ((projEntries proj).any (fun e => e.2)
        && (projEntries proj).any (fun e => !e.2)) = false) :
    ∃ res rem, documentTraverse root path (some proj)
        = .found (.obj res) (if path.isEmpty then none else some path)
            (setAt root path (.obj rem))
      ∧ (∀ k ∈ (projEntries proj).map (fun e => e.1), lookupD rem k = none)
      ∧ walkVal (setAt root path (.obj rem)) path = some (.obj rem) := by
  obtain ⟨e0, es', hes⟩ := List.exists_cons_of_ne_nil (projEntries_ne_nil proj htruthy)
  have hap := applyProjection_ok proj fs e0 es' hes hunan
  refine ⟨if e0.2 then (projPops ((e0 :: es').map (fun e => e.1)) [] fs).1
      else (projPops ((e0 :: es').map (fun e => e.1)) [] fs).2,
    (projPops ((e0 :: es').map (fun e => e.1)) [] fs).2, ?_, ?_, ?_⟩
  · simp only [documentTraverse, hwalk, htruthy, if_true, hap]
  · intro k hk
    rw [hes] at hk
    exact projPops_removed _ [] fs hnd k (by simpa using hk)
  · exact walkVal_setAt path root _ fs hwalk

/-- Witness for C10 at a concrete input: an inclusion projection over x,
applied at path a, removes x from the root's sub-document a in memory. -/
theorem c10_projection_mutates_root_witness :
    ∃ res rem, documentTraverse (.obj [("_id", .int 1), ("a", .obj [("x", .int 1), ("y", .int 2)])])
        [Sub.fld "a"] (some (.list ["x"]))
        = .found (.obj res) (if ([Sub.fld "a"] : List Sub).isEmpty then none else some [Sub.fld "a"])
            (setAt (.obj [("_id", .int 1), ("a", .obj [("x", .int 1), ("y", .int 2)])])
              [Sub.fld "a"] (.obj rem))
      ∧ (∀ k ∈ (projEntries (.list ["x"])).map (fun e => e.1), lookupD rem k = none)
      ∧ walkVal (setAt (.obj [("_id", .int 1), ("a", .obj [("x", .int 1), ("y", .int 2)])])
          [Sub.fld "a"] (.obj rem)) [Sub.fld "a"] = some (.obj rem) :=
  c10_projection_mutates_root
    (.obj [("_id", .int 1), ("a", .obj [("x", .int 1), ("y", .int 2)])])
    [Sub.fld "a"] (.list ["x"]) [("x", .int 1), ("y", .int 2)]
    rfl (by decide) rfl rfl

/-! Lemmas and claims about the path resolver. -/

theorem lookupNode_eraseAll (dsn : List (String × DsnNode)) (c : String) :
    lookupNode (eraseAllChildren dsn) c = (lookupNode dsn c).map eraseChildren := by
  induction dsn with
  | nil => rfl
  | cons p rest ih =>
    obtain ⟨k, v⟩ := p
    show (if k = c then some (eraseChildren v) else lookupNode (eraseAllChildren rest) c)
        = Option.map eraseChildren (if k = c then some v else lookupNode rest c)
    by_cases h : k = c
    · rw [if_pos h, if_pos h]
      rfl
    · rw [if_neg h, if_neg h, ih]

theorem runPath_eraseAll (dsn : List (String × DsnNode)) (segs : List String)
    (acc : List Sub) :
    runPath (eraseAllChildren dsn) segs acc = runPath dsn segs acc := by
  have key : ∀ (n : Nat) (segs : List String), segs.length ≤ n → ∀ acc,
      runPath (eraseAllChildren dsn) segs acc = runPath dsn segs acc := by
    intro n
    induction n with
    | zero =>
      intro segs hlen acc
      rw [List.eq_nil_of_length_eq_zero (Nat.le_zero.mp hlen)]
      rfl
    | succ n ih =>
      intro segs hlen acc
      cases segs with
      | nil => rfl
      | cons c rest =>
        simp only [runPath]
        rw [lookupNode_eraseAll]
        cases hl : lookupNode dsn c with
        | none => rfl
        | some node =>
          cases node with
          | mk f t cs =>
            simp only [Option.map_some']
            cases t with
            | scalar =>
              show runPath (eraseAllChildren dsn) rest (acc ++ [Sub.fld f])
                  = runPath dsn rest (acc ++ [Sub.fld f])
              exact ih rest (Nat.le_of_succ_le_succ (by simpa using hlen)) _
            | dict =>
              cases rest with
              | nil => rfl
              | cons k2 rest2 =>
                show runPath (eraseAllChildren dsn) rest2 (acc ++ [Sub.fld f, Sub.fld k2])
                    = runPath dsn rest2 (acc ++ [Sub.fld f, Sub.fld k2])
                refine ih rest2 ?_ _
                simp only [List.length_cons] at hlen
                omega
            | list =>
              cases rest with
              | nil => rfl
              | cons s2 rest2 =>
                show (match pyInt s2 with
                  | none => none
                  | some n2 => runPath (eraseAllChildren dsn) rest2
                      (acc ++ [Sub.fld f, Sub.idx n2]))
                  = (match pyInt s2 with
                  | none => none
                  | some n2 => runPath dsn rest2 (acc ++ [Sub.fld f, Sub.idx n2]))
                cases hp : pyInt s2 with
                | none => rfl
                | some n2 =>
                  show runPath (eraseAllChildren dsn) rest2 (acc ++ [Sub.fld f, Sub.idx n2])
                      = runPath dsn rest2 (acc ++ [Sub.fld f, Sub.idx n2])
                  refine ih rest2 ?_ _
                  simp only [List.length_cons] at hlen
                  omega
  exact key segs.length segs le_rfl acc

/-- The declaration tree with a nested name b declared only inside the
children of the root name a. -/
def dsn0 : List (String × DsnNode) :=
  [("a", .mk "fa" .scalar [("b", .mk "fb" .scalar [])])]

/-- C3 counterexample: in the tree where b is declared only inside a's
children, the segments a, b fail to resolve even though the claim's
child-scope semantics would resolve b against a's children; and the segments
a, a succeed even though a is declared only at the root, showing the root
mapping is the lookup scope at every position. -/
theorem c3_children_scope_counterexample :
    (lookupNode (DsnNode.children (.mk "fa" .scalar [("b", .mk "fb" .scalar [])])) "b").isSome
      = true
    ∧ parse_path dsn0 ["a", "b"] = (none, false)
    ∧ parse_path dsn0 ["a", "a"] = (some [.fld "fa", .fld "fa"], true) :=
  ⟨rfl, rfl, rfl⟩

/-- C3 (amended): `parse_path` resolves every segment against the root
mapping throughout; the children mappings of the matched nodes are never
consulted, so erasing every children mapping from the tree never changes the
result of resolution. -/
theorem c3_root_scope_resolution (dsn : List (String × DsnNode)) (segs : List String) :
    parse_path (eraseAllChildren dsn) segs = parse_path dsn segs := by
  cases dsn with
  | nil => rfl
  | cons p rest =>
    cases segs with
    | nil => rfl
    | cons c r =>
      show (match runPath (eraseAllChildren (p :: rest)) (c :: r) [] with
        | some r0 => (some r0, true)
        | none => (none, false)) =
        (match runPath (p :: rest) (c :: r) [] with
        | some r0 => (some r0, true)
        | none => (none, false))
      rw [runPath_eraseAll]

/-- The declaration tree with the single list-typed name a. -/
def dsnListEnd : List (String × DsnNode) := [("a", .mk "f" .list [])]

/-- The declaration tree with the single dict-typed name a. -/
def dsnDictEnd : List (String × DsnNode) := [("a", .mk "f" .dict [])]

/-- C6 counterexample: a list-typed field at the end of the segments, with
no following index, resolves successfully (the trailing list index is
optional), contradicting the claim that exhaustion right after a List-typed
partial always fails with ok false. -/
theorem c6_trailing_list_counterexample :
    parse_path dsnListEnd ["a"] = (some [Sub.fld "f"], true) := rfl

/-- C6 (amended): when the segments are exhausted immediately after matching
a dict-typed partial, resolution fails with ok false (at any point of the
run: any accumulator); when they are exhausted immediately after matching a
list-typed partial, resolution succeeds with the field appended and no
subscript, because the trailing list index is optional. -/
theorem c6_trailing_subscript_amended (dsn : List (String × DsnNode)) (acc : List Sub)
    (c : String) (node : DsnNode) (h : lookupNode dsn c = some node) :
    (node.ftype = .dict → runPath dsn [c] acc = none ∧ parse_path dsn [c] = (none, false))
    ∧ (node.ftype = .list → runPath dsn [c] acc = some (acc ++ [Sub.fld node.field])) := by
  constructor
  · intro ht
    have h1 : ∀ acc', runPath dsn [c] acc' = none := by
      intro acc'
      simp only [runPath, h, ht]
    refine ⟨h1 acc, ?_⟩
    cases dsn with
    | nil => simp [lookupNode] at h
    | cons p rest =>
      show (match runPath (p :: rest) [c] [] with
        | some r0 => (some r0, true)
        | none => (none, false)) = (none, false)
      rw [h1 []]
  · intro ht
    simp only [runPath, h, ht]

/-- Witness for C6 at a concrete input: the dict-typed tree fails on the
bare segment a, the list-typed tree succeeds on it. -/
theorem c6_trailing_subscript_amended_witness :
    (runPath dsnDictEnd ["a"] [] = none ∧ parse_path dsnDictEnd ["a"] = (none, false))
    ∧ runPath dsnListEnd ["a"] [] = some [Sub.fld "f"] :=
  ⟨(c6_trailing_subscript_amended dsnDictEnd [] "a" (.mk "f" .dict []) rfl).1 rfl,
   (c6_trailing_subscript_amended dsnListEnd [] "a" (.mk "f" .list []) rfl).2 rfl⟩


/-! Lemmas and claims about the request-dispatch pipeline. -/

theorem normField_key (raw : List (String × Val)) (f : FieldSpec) (p : String × Val)
    (h : normField raw f = some p) : p.1 = f.name := by
  cases hlv : lookupVal raw f.name with
  | some v =>
    rw [normField, hlv] at h
    cases h
    rfl
  | none =>
    rw [normField, hlv] at h
    cases hd : f.dfault with
    | none => rw [hd] at h; cases h
    | some d => rw [hd] at h; cases h; rfl

theorem lookupVal_filterMap_none (raw : List (String × Val)) (L : List FieldSpec)
    (key : String) (hk : ∀ s ∈ L, s.name ≠ key) :
    lookupVal (L.filterMap (normField raw)) key = none := by
  induction L with
  | nil => rfl
  | cons fs rest ih =>
    rw [List.filterMap_cons]
    have hrest := fun s hs => hk s (List.mem_cons_of_mem _ hs)
    cases hnf : normField raw fs with
    | none => exact ih hrest
    | some p =>
      obtain ⟨pk, pv⟩ := p
      have hp : pk = fs.name := normField_key raw fs (pk, pv) hnf
      show lookupVal ((pk, pv) :: rest.filterMap (normField raw)) key = none
      rw [lookupVal, if_neg (hp ▸ hk fs (List.mem_cons_self _ _))]
      exact ih hrest

theorem normalizeResource_no_soft_delete (raw rd : List (String × Val))
    (h : normalizeResource raw = some rd) : lookupVal rd "soft_delete" = none := by
  simp only [normalizeResource] at h
  split at h
  · split at h
    · have hrd := Option.some.inj h
      rw [← hrd]
      refine lookupVal_filterMap_none raw resourceFields "soft_delete" ?_
      intro s hs
      fin_cases hs <;> decide
    · cases h
  · cases h

theorem normalizeResource_isEmpty_false (raw rd : List (String × Val))
    (h : normalizeResource raw = some rd) : rd.isEmpty = false := by
  simp only [normalizeResource] at h
  split at h
  · split at h
    · rename_i hreq
      have hrd := Option.some.inj h
      have htype : (lookupVal raw "type").isSome := by
        simp only [resourceFields, List.all_cons, Bool.and_eq_true] at hreq
        simpa using hreq.1
      obtain ⟨v, hv⟩ := Option.isSome_iff_exists.mp htype
      rw [← hrd]
      simp [resourceFields, List.filterMap_cons, normField, hv]
    · cases h
  · cases h

theorem normalizeResources_lookup (raws : List (String × List (String × Val)))
    (res : List (String × List (String × Val))) (name : String) (rd : List (String × Val))
    (h : normalizeResources raws = some res) (hl : lookupRes res name = some rd) :
    ∃ raw, normalizeResource raw = some rd := by
  induction raws generalizing res with
  | nil =>
    simp only [normalizeResources] at h
    cases h
    simp [lookupRes] at hl
  | cons p rest ih =>
    obtain ⟨nm, raw⟩ := p
    simp only [normalizeResources] at h
    cases hnr : normalizeResource raw with
    | none => rw [hnr] at h; cases h
    | some rd0 =>
      rw [hnr] at h
      cases hrest : normalizeResources rest with
      | none => rw [hrest] at h; cases h
      | some res2 =>
        rw [hrest] at h
        cases h
        by_cases hn : nm = name
        · rw [lookupRes, if_pos hn] at hl
          cases hl
          exact ⟨raw, hnr⟩
        · rw [lookupRes, if_neg hn] at hl
          exact ih res2 hrest hl

theorem afterResource_error (rd : List (String × Val))
    (handler : List (String × Val) → Request → Response × List Step)
    (tv : Bool) (req : Request) (h : lookupVal rd "soft_delete" = none) :
    ∃ e, afterResource rd handler tv req = .error e := by
  simp only [afterResource]
  cases h1 : getItem rd "verbs" with
  | error e => exact ⟨e, rfl⟩
  | ok v1 =>
    cases h2 : getItem rd "db" with
    | error e => exact ⟨e, rfl⟩
    | ok v2 =>
      cases h3 : getItem rd "collection" with
      | error e => exact ⟨e, rfl⟩
      | ok v3 =>
        cases h4 : getItem rd "filter" with
        | error e => exact ⟨e, rfl⟩
        | ok v4 =>
          refine ⟨"KeyError: " ++ "soft_delete", ?_⟩
          have h5 : getItem rd "soft_delete" = .error ("KeyError: " ++ "soft_delete") := by
            simp [getItem, h]
          simp [h5]

/-- C4: for every settings document accepted and normalized by the settings
schema, the normalized definition of every resource contains no soft_delete
key (the RESOURCE schema neither declares nor defaults one), so the
resource-resolving wrapper's read of that key raises KeyError before the
verb check on every request naming a configured resource, whatever the
route handler, and the boundary wrapper answers the generic internal error
instead of the intended resource operation. -/
theorem c4_soft_delete_keyerror (raws res : List (String × List (String × Val)))
    (req : Request) (handler : List (String × Val) → Request → Response × List Step)
    (tv : Bool) (rd : List (String × Val))
    (hnorm : normalizeResources raws = some res)
    (hres : lookupRes res req.resource = some rd) :
    lookupVal rd "soft_delete" = none
    ∧ runRoute handler res tv req = (.internalError, [.resourceLookup]) := by
  obtain ⟨raw, hraw⟩ := normalizeResources_lookup raws res req.resource rd hnorm hres
  have hsd := normalizeResource_no_soft_delete raw rd hraw
  have hne := normalizeResource_isEmpty_false raw rd hraw
  obtain ⟨e, herr⟩ := afterResource_error rd handler tv req hsd
  refine ⟨hsd, ?_⟩
  simp only [runRoute, hres, hne, herr, Bool.false_eq_true, if_false]

/-- A raw settings resources section with one list resource and no verbs
entry. -/
def raws0 : List (String × List (String × Val)) :=
  [("items", [("type", .str "list"), ("db", .str "d"), ("collection", .str "c")])]

/-- The normalization of raws0: declared fields in schema order with the
defaults filled in. -/
def rdNorm0 : List (String × Val) :=
  [("type", .str "list"), ("db", .str "d"), ("collection", .str "c"),
   ("filter", .dict []), ("methods", .dict []), ("verbs", .str "*"),
   ("partials", .dict []), ("schema", .dict [])]

/-- The configured resources map normalized from raws0. -/
def resNorm0 : List (String × List (String × Val)) := [("items", rdNorm0)]

/-- A route handler that never runs in these scenarios. -/
def trivialHandler : List (String × Val) → Request → Response × List Step :=
  fun _ _ => (.ok, [])

/-- Witness for C4 at a concrete input: a fully normalized one-resource
configuration answers a GET with a valid bearer header with the internal
error. -/
theorem c4_soft_delete_keyerror_witness :
    lookupVal rdNorm0 "soft_delete" = none
    ∧ runRoute trivialHandler resNorm0 true ⟨"items", "GET", some "Bearer t"⟩
        = (.internalError, [.resourceLookup]) :=
  c4_soft_delete_keyerror raws0 resNorm0 ⟨"items", "GET", some "Bearer t"⟩
    trivialHandler true rdNorm0 rfl rfl


/-- The HTTP method names a request to the generated routes can carry. -/
def httpMethodNames : List String := ["GET", "POST", "PUT", "PATCH", "DELETE"]

/-- The verb slugs the RESOURCE schema allows inside a verbs list. -/
def verbSlugs : List String := ["create", "list", "read", "replace", "update", "delete"]

/-- A raw settings resources section whose single resource configures an
explicit verbs list. -/
def raws5 : List (String × List (String × Val)) :=
  [("items", [("type", .str "list"), ("db", .str "d"), ("collection", .str "c"),
    ("verbs", .strList ["read", "list"])])]

/-- The normalization of raws5. -/
def rdNorm5 : List (String × Val) :=
  [("type", .str "list"), ("db", .str "d"), ("collection", .str "c"),
   ("filter", .dict []), ("methods", .dict []), ("verbs", .strList ["read", "list"]),
   ("partials", .dict []), ("schema", .dict [])]

/-- The configured resources map normalized from raws5. -/
def resNorm5 : List (String × List (String × Val)) := [("items", rdNorm5)]

/-- C5 counterexample: for a resource configured with the explicit verbs
list read, list, a GET request is answered with the internal error, not
with not-found as the claim states: the soft_delete KeyError preempts the
verb-permission check. -/
theorem c5_verbs_list_counterexample :
    normalizeResources raws5 = some resNorm5
    ∧ runRoute trivialHandler resNorm5 true ⟨"items", "GET", some "Bearer t"⟩
        = (.internalError, [.resourceLookup])
    ∧ Response.internalError ≠ Response.notFound :=
  ⟨rfl, rfl, by decide⟩

/-- C5 (amended): for every resource of an accepted, normalized
configuration whose verbs value is an explicit list, every request to that
resource is answered with the generic internal error — the soft_delete
KeyError fires before the verb-permission check ever runs; moreover the
membership test that check would perform, of the HTTP method name in the
verbs list of slugs, can never succeed. -/
theorem c5_verbs_list_amended (raws res : List (String × List (String × Val)))
    (req : Request) (handler : List (String × Val) → Request → Response × List Step)
    (tv : Bool) (rd : List (String × Val)) (vs : List String)
    (hnorm : normalizeResources raws = some res)
    (hres : lookupRes res req.resource = some rd)
    (hverbs : lookupVal rd "verbs" = some (.strList vs))
    (hsub : ∀ v ∈ vs, v ∈ verbSlugs)
    (hm : req.method ∈ httpMethodNames) :
    runRoute handler res tv req = (.internalError, [.resourceLookup])
    ∧ verbsAllow (.strList vs) req.method = false := by
  obtain ⟨raw, hraw⟩ := normalizeResources_lookup raws res req.resource rd hnorm hres
  have hsd := normalizeResource_no_soft_delete raw rd hraw
  have hne := normalizeResource_isEmpty_false raw rd hraw
  obtain ⟨e, herr⟩ := afterResource_error rd handler tv req hsd
  constructor
  · simp only [runRoute, hres, hne, herr, Bool.false_eq_true, if_false]
  · show vs.contains req.method = false
    cases hc : vs.contains req.method
    · rfl
    · exfalso
      have hmem : req.method ∈ vs := List.mem_of_elem_eq_true hc
      have hslug : req.method ∈ verbSlugs := hsub _ hmem
      have hdisj : ∀ x ∈ httpMethodNames, x ∉ verbSlugs := by decide
      exact hdisj _ hm hslug

/-- Witness for C5 at a concrete input: the read, list verbs resource
answers GET with the internal error, and GET is not a member of its verbs
list. -/
theorem c5_verbs_list_amended_witness :
    runRoute trivialHandler resNorm5 true ⟨"items", "GET", some "Bearer t"⟩
        = (.internalError, [.resourceLookup])
    ∧ verbsAllow (.strList ["read", "list"]) "GET" = false :=
  c5_verbs_list_amended raws5 resNorm5 ⟨"items", "GET", some "Bearer t"⟩
    trivialHandler true rdNorm5 ["read", "list"] rfl rfl rfl
    (by decide) (by decide)

/-- C9 counterexample: a request with the Authorization header Basic xyz to
a configured resource is answered with the internal error, not the
bad-scheme code, and the executed trace contains the resource lookup: the
resource-resolving wrapper runs before the bearer check, which never runs
at all (the bearer check would have produced the bad-scheme response had it
been reached). -/
theorem c9_auth_order_counterexample :
    runRoute trivialHandler resNorm0 true ⟨"items", "GET", some "Basic xyz"⟩
        = (.internalError, [.resourceLookup])
    ∧ Response.internalError ≠ Response.badScheme
    ∧ Step.resourceLookup ∈
        (runRoute trivialHandler resNorm0 true ⟨"items", "GET", some "Basic xyz"⟩).2
    ∧ bearerCheck (some "Basic xyz") true = some .badScheme :=
  ⟨rfl, by decide, by rw [show (runRoute trivialHandler resNorm0 true
      ⟨"items", "GET", some "Basic xyz"⟩).2 = [Step.resourceLookup] from rfl]; decide, rfl⟩

/-- C9 (amended): resource resolution executes before the auth check on
every request: for a configured resource whose normalized definition lacks
soft_delete (every accepted configuration), any request — whatever its
Authorization header — is answered with the internal error, with the
resource lookup in the executed trace and the auth check never executed,
so the bad-scheme rejection is never produced on these routes. -/
theorem c9_resolution_before_auth (res : List (String × List (String × Val)))
    (req : Request) (handler : List (String × Val) → Request → Response × List Step)
    (tv : Bool) (rd : List (String × Val))
    (hres : lookupRes res req.resource = some rd)
    (hne : rd.isEmpty = false)
    (hsd : lookupVal rd "soft_delete" = none) :
    runRoute handler res tv req = (.internalError, [.resourceLookup])
    ∧ Step.resourceLookup ∈ (runRoute handler res tv req).2
    ∧ Step.authCheck ∉ (runRoute handler res tv req).2 := by
  obtain ⟨e, herr⟩ := afterResource_error rd handler tv req hsd
  have hrun : runRoute handler res tv req = (.internalError, [.resourceLookup]) := by
    simp only [runRoute, hres, hne, herr, Bool.false_eq_true, if_false]
  refine ⟨hrun, ?_, ?_⟩
  · rw [hrun]
    decide
  · rw [hrun]
    decide

/-- Witness for C9 at a concrete input: the Basic-scheme request to the
normalized one-resource configuration resolves the resource, never reaches
the auth check, and is answered with the internal error. -/
theorem c9_resolution_before_auth_witness :
    runRoute trivialHandler resNorm0 true ⟨"items", "GET", some "Basic xyz"⟩
        = (.internalError, [.resourceLookup])
    ∧ Step.resourceLookup ∈
        (runRoute trivialHandler resNorm0 true ⟨"items", "GET", some "Basic xyz"⟩).2
    ∧ Step.authCheck ∉
        (runRoute trivialHandler resNorm0 true ⟨"items", "GET", some "Basic xyz"⟩).2 :=
  c9_resolution_before_auth resNorm0 ⟨"items", "GET", some "Basic xyz"⟩
    trivialHandler true rdNorm0 rfl rfl rfl

end HttpStorage
